import Mathlib

/-!
Verification of `library/comware_install_config2.py`.

The algorithmic core of the module is `process_diff(previous_config,
current_config)`, which runs Python's `difflib.unified_diff` (with the
default context size `n = 3`) over the two line sequences, skips the two
file-header lines, and in a single left-to-right pass over the remaining
raw diff lines (a) synthesizes `undo` command sequences for six removed-line
patterns, using one line of raw look-back (`last_line`), and (b) collects
the `+`/`-` tagged lines of length `> 1` into `list_diff`.

We embed, faithfully to CPython's `difflib` (the library the source calls):
  * `SequenceMatcher.find_longest_match` (with the `autojunk` heuristic and
    an empty `bjunk` set, as produced by `SequenceMatcher(None, a, b)`),
  * `get_matching_blocks`, `get_opcodes`, `get_grouped_opcodes`,
  * `unified_diff` at the exact call site used by `process_diff`
    (`fromfile="previous_config"`, `tofile="current_config"`, `n=3`,
    `lineterm='\n'`),
and then `process_diff` itself, plus a model of the command assembly in
`main` (`is_delete` handling, loading of the previous configuration, and
the final command list).

Python strings are modelled as Lean `String`; Python lists of lines as
`List String`.  Python's `line[1:]` is `pyTail`, `line[0]` is `pyHead`
(total with a `'\x00'` default; the diff output provably contains no empty
line, so the default is never consulted on real diff output).
-/

namespace ComwareInstallConfig2

/-- Python `line[0]`.  Python raises `IndexError` on the empty string; the
default `'\x00'` char is returned instead here (no rule pattern matches it). -/
def pyHead (s : String) : Char := s.data.headD '\x00'

/-- Python `line[1:]`. -/
def pyTail (s : String) : String := String.mk (s.data.drop 1)

/-- Python `s.startswith(p)`. -/
def pyStartsWith (s p : String) : Bool := p.data.isPrefixOf s.data

/-- Python `s.rstrip()`: remove trailing whitespace. -/
def pyRstrip (s : String) : String :=
  String.mk ((s.data.reverse.dropWhile Char.isWhitespace).reverse)

/-- Python `s.lower()` (ASCII is all that reaches it here). -/
def pyLower (s : String) : String := String.mk (s.data.map Char.toLower)

/-- Python `s.split('\n')`. -/
def pySplitNL (s : String) : List String :=
  (s.data.splitOn '\n').map String.mk

/-! ### difflib.SequenceMatcher, as constructed by `SequenceMatcher(None, a, b)` -/

/-- The positions of line `s` in `b` (ascending), i.e. the list
`b2j[s]` built by `SequenceMatcher.__chain_b` before junk purging. -/
def positionsOf (b : List String) (s : String) : List Nat :=
  (List.range b.length).filter (fun j => b.getD j "" == s)

/-- `b2j` lookup after `__chain_b`: `isjunk` is `None` (so `bjunk = {}`), and
the `autojunk` heuristic removes "popular" entries when `len(b) >= 200`.
A line not occurring in `b` yields `[]` (Python: `b2j.get(a[i], nothing)`). -/
def b2j (b : List String) (s : String) : List Nat :=
  if 200 ≤ b.length ∧ b.length / 100 + 1 < (positionsOf b s).length then []
  else positionsOf b s

/-- The running best match of `find_longest_match`:
`(besti, bestj, bestsize)`. -/
structure Best where
  i : Nat
  j : Nat
  size : Nat
deriving DecidableEq, Repr

/-- The body of the inner `for j in b2j.get(a[i], nothing)` loop of
`find_longest_match`: compute `k = newj2len[j] = j2len.get(j-1, 0) + 1`
(Python's `j2len.get(-1, 0)` is `0`, hence the `j = 0` case), write it into
`newj2len`, and update the best match when `k > bestsize`. -/
def innerStep (old : Nat → Nat) (i : Nat) (acc : Best × (Nat → Nat)) (j : Nat) :
    Best × (Nat → Nat) :=
  let k := (if j = 0 then 0 else old (j - 1)) + 1
  let nj : Nat → Nat := fun j' => if j' = j then k else acc.2 j'
  let best := if acc.1.size < k then Best.mk (i + 1 - k) (j + 1 - k) k else acc.1
  (best, nj)

/-- One iteration `i` of the outer loop of `find_longest_match`: loop over
`b2j.get(a[i], [])`, skipping `j < blo` and stopping at `j >= bhi` (the
positions list is ascending, so `continue`/`break` equal a filter), building
`newj2len` from the previous row `old` and updating the best match. -/
def innerRow (old : Nat → Nat) (blo bhi : Nat) (js : List Nat) (i : Nat)
    (best0 : Best) : Best × (Nat → Nat) :=
  (js.filter (fun j => decide (blo ≤ j ∧ j < bhi))).foldl
    (innerStep old i) (best0, fun _ => 0)

/-- The two nested loops of `find_longest_match` ("find longest junk-free
match"): rows `i = alo, ..., ahi-1`, threading `(best, j2len)`. -/
def innerLoop (a b : List String) (alo ahi blo bhi : Nat) : Best :=
  ((List.range' alo (ahi - alo)).foldl
    (fun (st : Best × (Nat → Nat)) i =>
      innerRow st.2 blo bhi (b2j b (a.getD i "")) i st.1)
    (Best.mk alo blo 0, fun _ => 0)).1

/-- The first `while` loop of `find_longest_match`: extend the best match
backwards over equal non-junk elements.  `bjunk` is empty here, so the
`not isbjunk(...)` conjunct is `True`.  Structural recursion on `besti`
(`besti` strictly decreases; `besti > alo` fails at `besti = 0`). -/
def extendBack (a b : List String) (alo blo : Nat) :
    Nat → Nat → Nat → Best
  | 0, bj, sz => Best.mk 0 bj sz
  | bi + 1, bj, sz =>
    if alo < bi + 1 ∧ blo < bj ∧ a.getD bi "" = b.getD (bj - 1) "" then
      extendBack a b alo blo bi (bj - 1) (sz + 1)
    else Best.mk (bi + 1) bj sz

/-- The second `while` loop of `find_longest_match`: extend forwards over
equal non-junk elements.  Fuel-based; every iteration needs
`besti + bestsize < ahi`, so fuel `ahi` (the value passed at the call site)
can never be exhausted before the loop condition fails. -/
def extendFwd (a b : List String) (ahi bhi bi bj : Nat) :
    Nat → Nat → Nat
  | 0, sz => sz
  | fuel + 1, sz =>
    if bi + sz < ahi ∧ bj + sz < bhi ∧ a.getD (bi + sz) "" = b.getD (bj + sz) "" then
      extendFwd a b ahi bhi bi bj fuel (sz + 1)
    else sz

/-- `SequenceMatcher.find_longest_match(alo, ahi, blo, bhi)`.  The third and
fourth `while` loops ("suck up the matching junk") require
`isbjunk(b[...])`, which is `False` for every element since
`SequenceMatcher(None, a, b)` has `bjunk = set()`; they never iterate and
are omitted. -/
def findLongestMatch (a b : List String) (alo ahi blo bhi : Nat) : Best :=
  let inner := innerLoop a b alo ahi blo bhi
  let backed := extendBack a b alo blo inner.i inner.j inner.size
  let size := extendFwd a b ahi bhi backed.i backed.j ahi backed.size
  Best.mk backed.i backed.j size

/-- The recursive block collection of `get_matching_blocks` (Python uses an
explicit queue and a final `sort()`; recursing left, emitting the match,
then recursing right yields the same sorted list, since all left blocks
start before `i` and all right blocks after `i + k`).  Fuel-based: each
recursive call shrinks `ahi - alo` by at least one, so fuel
`len(a) + len(b) + 1` suffices. -/
def matchingBlocksAux (a b : List String) :
    Nat → Nat → Nat → Nat → Nat → List (Nat × Nat × Nat)
  | 0, _, _, _, _ => []
  | fuel + 1, alo, ahi, blo, bhi =>
    let m := findLongestMatch a b alo ahi blo bhi
    if m.size = 0 then []
    else
      (if alo < m.i ∧ blo < m.j then
        matchingBlocksAux a b fuel alo m.i blo m.j else []) ++
      [(m.i, m.j, m.size)] ++
      (if m.i + m.size < ahi ∧ m.j + m.size < bhi then
        matchingBlocksAux a b fuel (m.i + m.size) ahi (m.j + m.size) bhi else [])

/-- The adjacent-block collapse pass of `get_matching_blocks`
(`i1 = j1 = k1 = 0` start, merge blocks with `i1+k1 == i2 and j1+k1 == j2`). -/
def collapseBlocks (blocks : List (Nat × Nat × Nat)) : List (Nat × Nat × Nat) :=
  let st := blocks.foldl
    (fun (st : (Nat × Nat × Nat) × List (Nat × Nat × Nat)) blk =>
      let i1 := st.1.1
      let j1 := st.1.2.1
      let k1 := st.1.2.2
      if i1 + k1 = blk.1 ∧ j1 + k1 = blk.2.1 then
        ((i1, j1, k1 + blk.2.2), st.2)
      else
        ((blk.1, blk.2.1, blk.2.2), st.2 ++ if k1 ≠ 0 then [(i1, j1, k1)] else []))
    ((0, 0, 0), [])
  st.2 ++ (if st.1.2.2 ≠ 0 then [st.1] else [])

/-- `SequenceMatcher.get_matching_blocks()` (with the terminating sentinel
`(len(a), len(b), 0)`). -/
def getMatchingBlocks (a b : List String) : List (Nat × Nat × Nat) :=
  let blocks := matchingBlocksAux a b (a.length + b.length + 1) 0 a.length 0 b.length
  collapseBlocks blocks ++ [(a.length, b.length, 0)]

/-- An opcode tag, Python's `'replace' | 'delete' | 'insert' | 'equal'`. -/
inductive Tag where
  | replace
  | delete
  | insert
  | equal
deriving DecidableEq, Repr

/-- A 5-tuple `(tag, i1, i2, j1, j2)` of `get_opcodes`. -/
structure Opcode where
  tag : Tag
  i1 : Nat
  i2 : Nat
  j1 : Nat
  j2 : Nat
deriving DecidableEq, Repr

/-- `SequenceMatcher.get_opcodes()`. -/
def getOpcodes (a b : List String) : List Opcode :=
  ((getMatchingBlocks a b).foldl
    (fun (st : Nat × Nat × List Opcode) blk =>
      let i := st.1
      let j := st.2.1
      let acc := st.2.2
      let ai := blk.1
      let bj := blk.2.1
      let size := blk.2.2
      let acc :=
        if i < ai ∧ j < bj then acc ++ [Opcode.mk Tag.replace i ai j bj]
        else if i < ai then acc ++ [Opcode.mk Tag.delete i ai j bj]
        else if j < bj then acc ++ [Opcode.mk Tag.insert i ai j bj]
        else acc
      let acc :=
        if size ≠ 0 then acc ++ [Opcode.mk Tag.equal ai (ai + size) bj (bj + size)]
        else acc
      (ai + size, bj + size, acc))
    (0, 0, [])).2.2

/-- The initial fixup of `get_grouped_opcodes`: trim a leading `equal`
opcode to at most `n` lines of context. -/
def fixupHead (n : Nat) : List Opcode → List Opcode
  | [] => []
  | c :: rest =>
    if c.tag = Tag.equal then
      Opcode.mk Tag.equal (max c.i1 (c.i2 - n)) c.i2 (max c.j1 (c.j2 - n)) c.j2 :: rest
    else c :: rest

/-- The trailing fixup of `get_grouped_opcodes`: trim a trailing `equal`
opcode to at most `n` lines of context. -/
def fixupLast (n : Nat) (codes : List Opcode) : List Opcode :=
  match codes.getLast? with
  | none => []
  | some c =>
    codes.dropLast ++
      [if c.tag = Tag.equal then
        Opcode.mk Tag.equal c.i1 (min c.i2 (c.i1 + n)) c.j1 (min c.j2 (c.j1 + n))
      else c]

/-- `SequenceMatcher.get_grouped_opcodes(n)` with `n = 3` (the default used
by `unified_diff` at the `process_diff` call site).  Groups are split at
`equal` opcodes spanning more than `2n` lines. -/
def getGroupedOpcodes (a b : List String) : List (List Opcode) :=
  let n := 3
  let codes := getOpcodes a b
  let codes := if codes = [] then [Opcode.mk Tag.equal 0 1 0 1] else codes
  let codes := fixupLast n (fixupHead n codes)
  let st := codes.foldl
    (fun (st : List Opcode × List (List Opcode)) c =>
      if c.tag = Tag.equal ∧ 2 * n < c.i2 - c.i1 then
        ([Opcode.mk Tag.equal (max c.i1 (c.i2 - n)) c.i2 (max c.j1 (c.j2 - n)) c.j2],
         st.2 ++ [st.1 ++ [Opcode.mk Tag.equal c.i1 (min c.i2 (c.i1 + n)) c.j1 (min c.j2 (c.j1 + n))]])
      else (st.1 ++ [c], st.2))
    ([], [])
  if st.1 ≠ [] ∧ ¬(st.1.length = 1 ∧ (st.1.headD (Opcode.mk Tag.equal 0 0 0 0)).tag = Tag.equal) then
    st.2 ++ [st.1]
  else st.2

/-- `difflib._format_range_unified(start, stop)`. -/
def formatRangeUnified (start stop : Nat) : String :=
  let beginning := start + 1
  let length := stop - start
  if length = 1 then toString beginning
  else
    toString (if length = 0 then beginning - 1 else beginning) ++ "," ++ toString length

/-- The per-opcode line rendering of `unified_diff`: `' '`-prefixed context
for `equal`, `'-'` lines for `replace`/`delete`, `'+'` lines for
`replace`/`insert`. -/
def renderOpcode (a b : List String) (c : Opcode) : List String :=
  if c.tag = Tag.equal then
    ((a.drop c.i1).take (c.i2 - c.i1)).map (fun l => " " ++ l)
  else
    (if c.tag = Tag.replace ∨ c.tag = Tag.delete then
      ((a.drop c.i1).take (c.i2 - c.i1)).map (fun l => "-" ++ l) else []) ++
    (if c.tag = Tag.replace ∨ c.tag = Tag.insert then
      ((b.drop c.j1).take (c.j2 - c.j1)).map (fun l => "+" ++ l) else [])

/-- One group of `unified_diff` output: the `@@ -r1 +r2 @@` hunk header
followed by the rendered opcodes. -/
def renderGroup (a b : List String) (g : List Opcode) : List String :=
  let first := g.headD (Opcode.mk Tag.equal 0 0 0 0)
  let last := g.getLastD (Opcode.mk Tag.equal 0 0 0 0)
  ("@@ -" ++ formatRangeUnified first.i1 last.i2 ++ " +" ++
      formatRangeUnified first.j1 last.j2 ++ " @@\n") ::
    (g.map (renderOpcode a b)).flatten

/-- `difflib.unified_diff(a, b, fromfile="previous_config",
tofile="current_config")` (so `n = 3`, `lineterm = '\n'`, no dates), as
invoked by `process_diff`: the two header lines are emitted before the
first group only (no output at all when there are no groups). -/
def unifiedDiff (a b : List String) : List String :=
  let groups := getGroupedOpcodes a b
  if groups = [] then []
  else
    "--- previous_config\n" :: "+++ current_config\n" ::
      (groups.map (renderGroup a b)).flatten

/-! ### The UndoSynthesizer: the per-line loop of `process_diff` -/

/-- The commands emitted for one raw diff line `line` given the raw
preceding line `last_line` — the six independent `if` statements of
`process_diff` (the `line.strip()` whose result Python discards is a
no-op and is omitted). -/
def stepCommands (last_line line : String) : List String :=
  (if pyHead line = '-' ∧ pyStartsWith (pyTail line) "service-instance" then
    [pyTail last_line, "undo " ++ pyTail line, "quit\n"] else []) ++
  (if pyHead line = '-' ∧ pyStartsWith (pyTail line) "ip route-static vpn-instance" then
    ["undo " ++ pyTail line] else []) ++
  (if pyHead line = '-' ∧ pyStartsWith (pyTail line) "vsi" then
    ["undo " ++ pyTail line] else []) ++
  (if pyHead line = '-' ∧ pyStartsWith (pyTail line) "ip vpn-instance" then
    (if pyStartsWith (pyTail last_line) "bgp" then
      [pyTail last_line, "undo " ++ pyTail line, "quit\n"]
    else ["undo " ++ pyTail line]) else []) ++
  (if pyHead line = '-' ∧ pyStartsWith (pyTail line) "interface Vsi-interface" then
    ["undo " ++ pyTail line] else []) ++
  (if pyHead line = '-' ∧ pyStartsWith (pyTail line) "interface Tunnel" then
    ["undo " ++ pyTail line] else [])

/-- The reporting filter of `process_diff`:
`line[0] in ['-', '+'] and len(line) > 1`. -/
def isChangedLine (line : String) : Bool :=
  decide ((pyHead line = '-' ∨ pyHead line = '+') ∧ 1 < line.data.length)

/-- The loop of `process_diff` over the raw diff lines, threading
`last_line` (updated after every line, matched or not) and accumulating
`(list_diff, changed_commands)` in emission order. -/
def processLines : List String → String → List String × List String
  | [], _ => ([], [])
  | line :: rest, last_line =>
    let tail := processLines rest line
    ((if isChangedLine line then line :: tail.1 else tail.1),
     stepCommands last_line line ++ tail.2)

/-- `process_diff(previous_config, current_config)`: run the differ, skip
the two header lines (`list(diff)[2:]`), then the synthesis loop with
`last_line = ''` initially.  Returns `(list_diff, changed_commands)`. -/
def processDiff (previous_config current_config : List String) :
    List String × List String :=
  processLines ((unifiedDiff previous_config current_config).drop 2) ""

/-- The look-back value `last_line` consulted while processing element `i`
of the raw post-header diff sequence: the immediately preceding raw diff
line, or the initial `''` at `i = 0`. -/
def lookbackAt (d : List String) (i : Nat) : String :=
  if i = 0 then "" else d.getD (i - 1) ""

/-! ### The caller-level orchestration in `main` -/

/-- The previous-configuration load of `main` (lines 194–199), for
`is_delete = 'false'`.  `previous_config` starts as the empty string `''`
(an empty line sequence); if `previous_config_content` is truthy it is
split on `'\n'`; otherwise `os.path.isfile(previous_config_file)` is
consulted.  CPython semantics: `os.path.isfile(None)` raises `TypeError`
(`genericpath.isfile` only swallows `OSError`/`ValueError`), so when both
parameters are absent the module crashes.  The filesystem is abstracted as
`fs : path → Option (file's splitlines)`. -/
def loadPreviousConfig (previous_config_content : Option String)
    (previous_config_file : Option String)
    (fs : String → Option (List String)) : Except String (List String) :=
  let fromFile : Except String (List String) :=
    match previous_config_file with
    | none => Except.error "TypeError: stat: path should be string, not NoneType"
    | some p =>
      match fs p with
      | some fileLines => Except.ok fileLines
      | none => Except.ok []
  match previous_config_content with
  | some c => if c = "" then fromFile else Except.ok (pySplitNL c)
  | none => fromFile

/-- The command-list assembly of `main` (lines 190–219), given the
`is_delete` module parameter (Python applies `str(...).lower()` to it), the
previous-config parameters, and the lines of the (existing) `config_file`.
In incremental mode (`'false'`) the diff/synthesis runs first; then the
config file's lines are re-read with `line.rstrip()` when `is_delete` is
`'true'`, or when it is `'false'` and `list_diff` is non-empty; otherwise
the single placeholder `"# There are no changes"` is appended.  Device
interaction and check mode are outside this model. -/
def mainCommands (is_delete : String) (previous_config_content : Option String)
    (previous_config_file : Option String) (fs : String → Option (List String))
    (config_file_lines : List String) : Except String (List String) :=
  let diffPart : Except String (List String × List String) :=
    if pyLower is_delete = "false" then
      match loadPreviousConfig previous_config_content previous_config_file fs with
      | Except.error e => Except.error e
      | Except.ok previous_config =>
        Except.ok (processDiff previous_config config_file_lines)
    else Except.ok ([], [])
  match diffPart with
  | Except.error e => Except.error e
  | Except.ok st =>
    let list_diff := st.1
    let commands := st.2
    if pyLower is_delete = "true" then
      Except.ok (commands ++ config_file_lines.map pyRstrip)
    else if pyLower is_delete = "false" ∧ 0 < list_diff.length then
      Except.ok (commands ++ config_file_lines.map pyRstrip)
    else
      Except.ok (commands ++ ["# There are no changes"])

/-! ### Chain lengths of the inner matching loop (proof support)

For the self-diff theorem we characterise the `j2len` dictionaries built by
`find_longest_match` when it is run on a sequence against itself
(`a = b`, `alo = blo = 0`, `ahi = bhi = len(a)`): after processing row
`i`, `j2len[j] = chainC a i j`, the length of the run of consecutive
`b2j`-indexable matches ending at `(i, j)`. -/

/-- The length of the junk-free match run ending at row `i`, column `j`,
for the self-comparison of `a` (so a cell participates iff
`j ∈ b2j a a[i]`). -/
def chainC (a : List String) : Nat → Nat → Nat
  | 0, j => if j ∈ b2j a (a.getD 0 "") then 1 else 0
  | i + 1, j =>
    if j ∈ b2j a (a.getD (i + 1) "") then
      (if j = 0 then 0 else chainC a i (j - 1)) + 1
    else 0

/-! ## Lemmas -/

theorem mem_b2j_lt {a : List String} {s : String} {j : Nat}
    (h : j ∈ b2j a s) : j < a.length := by
  unfold b2j at h
  split at h
  · simp at h
  · unfold positionsOf at h
    have := List.mem_filter.mp h
    exact List.mem_range.mp this.1

theorem mem_b2j_getD {a : List String} {s : String} {j : Nat}
    (h : j ∈ b2j a s) : a.getD j "" = s := by
  unfold b2j at h
  split at h
  · simp at h
  · unfold positionsOf at h
    have := List.mem_filter.mp h
    simpa using this.2

theorem self_mem_b2j {a : List String} {i : Nat} (hi : i < a.length)
    (hne : b2j a (a.getD i "") ≠ []) : i ∈ b2j a (a.getD i "") := by
  unfold b2j at hne ⊢
  split at hne
  · exact absurd rfl hne
  · next h =>
    rw [if_neg h]
    unfold positionsOf
    exact List.mem_filter.mpr ⟨List.mem_range.mpr hi, beq_self_eq_true _⟩

theorem mem_b2j_self_col {a : List String} {i j : Nat}
    (h : j ∈ b2j a (a.getD i "")) : j ∈ b2j a (a.getD j "") := by
  have := mem_b2j_getD h
  rw [this]
  exact h

theorem b2j_sorted (a : List String) (s : String) :
    (b2j a s).Pairwise (· < ·) := by
  unfold b2j
  split
  · exact List.Pairwise.nil
  · exact (List.pairwise_lt_range a.length).filter _

theorem chainC_zero_eq (a : List String) (j : Nat) :
    chainC a 0 j = if j ∈ b2j a (a.getD 0 "") then 1 else 0 := rfl

theorem chainC_succ_eq (a : List String) (i j : Nat) :
    chainC a (i + 1) j =
      if j ∈ b2j a (a.getD (i + 1) "") then
        (if j = 0 then 0 else chainC a i (j - 1)) + 1
      else 0 := rfl

theorem chainC_eq_zero {a : List String} {i j : Nat}
    (h : j ∉ b2j a (a.getD i "")) : chainC a i j = 0 := by
  cases i with
  | zero => rw [chainC_zero_eq, if_neg h]
  | succ i => rw [chainC_succ_eq, if_neg h]

theorem chainC_pos_diag {a : List String} {j : Nat}
    (h : j ∈ b2j a (a.getD j "")) : 1 ≤ chainC a j j := by
  cases j with
  | zero => rw [chainC_zero_eq, if_pos h]
  | succ j' =>
    rw [chainC_succ_eq, if_pos h]
    exact Nat.succ_le_succ (Nat.zero_le _)

theorem chainC_le_row (a : List String) : ∀ i j, chainC a i j ≤ i + 1 := by
  intro i
  induction i with
  | zero =>
    intro j
    rw [chainC_zero_eq]
    split
    · exact le_refl 1
    · exact Nat.zero_le 1
  | succ i ih =>
    intro j
    rw [chainC_succ_eq]
    split
    · split
      · exact Nat.succ_le_succ (Nat.zero_le _)
      · exact Nat.succ_le_succ (le_trans (Nat.le_refl _) (ih (j - 1)))
    · exact Nat.zero_le _

theorem chainC_le_self_col (a : List String) :
    ∀ i j, chainC a i j ≤ chainC a j j := by
  intro i
  induction i with
  | zero =>
    intro j
    by_cases h : j ∈ b2j a (a.getD 0 "")
    · rw [chainC_zero_eq, if_pos h]
      exact chainC_pos_diag (mem_b2j_self_col h)
    · rw [chainC_zero_eq, if_neg h]
      exact Nat.zero_le _
  | succ i ih =>
    intro j
    by_cases h : j ∈ b2j a (a.getD (i + 1) "")
    · have hj := mem_b2j_self_col h
      cases j with
      | zero =>
        rw [chainC_succ_eq, if_pos h, if_pos rfl]
        exact chainC_pos_diag hj
      | succ j' =>
        rw [chainC_succ_eq, if_pos h, if_neg (Nat.succ_ne_zero j')]
        rw [chainC_succ_eq a j' (j' + 1), if_pos hj, if_neg (Nat.succ_ne_zero j')]
        exact Nat.succ_le_succ (ih j')
    · rw [chainC_eq_zero h]
      exact Nat.zero_le _

theorem chainC_le_diag_row (a : List String) :
    ∀ i j, i < a.length → chainC a i j ≤ chainC a i i := by
  intro i
  induction i with
  | zero =>
    intro j h0
    by_cases h : j ∈ b2j a (a.getD 0 "")
    · have hne : b2j a (a.getD 0 "") ≠ [] := by
        intro he
        rw [he] at h
        simp at h
      have h00 := self_mem_b2j h0 hne
      rw [chainC_zero_eq, if_pos h, chainC_zero_eq, if_pos h00]
    · rw [chainC_eq_zero h]
      exact Nat.zero_le _
  | succ i ih =>
    intro j hsn
    by_cases h : j ∈ b2j a (a.getD (i + 1) "")
    · have hne : b2j a (a.getD (i + 1) "") ≠ [] := by
        intro he
        rw [he] at h
        simp at h
      have hd := self_mem_b2j hsn hne
      have hdiag : chainC a (i + 1) (i + 1) = chainC a i i + 1 := by
        rw [chainC_succ_eq, if_pos hd, if_neg (Nat.succ_ne_zero i),
          Nat.add_sub_cancel]
      cases j with
      | zero =>
        rw [chainC_succ_eq, if_pos h, if_pos rfl, hdiag]
        exact Nat.succ_le_succ (Nat.zero_le _)
      | succ j' =>
        rw [chainC_succ_eq, if_pos h, if_neg (Nat.succ_ne_zero j'), hdiag]
        exact Nat.succ_le_succ (ih j' (Nat.lt_of_succ_lt hsn))
    · rw [chainC_eq_zero h]
      exact Nat.zero_le _

theorem sorted_split {l : List Nat} {m : Nat} (hs : l.Pairwise (· < ·))
    (hm : m ∈ l) :
    ∃ A B, l = A ++ m :: B ∧ (∀ j ∈ A, j < m) ∧ (∀ j ∈ B, m < j) := by
  induction l with
  | nil => cases hm
  | cons x xs ih =>
    rw [List.pairwise_cons] at hs
    rcases List.mem_cons.mp hm with he | hmem
    · subst he
      exact ⟨[], xs, rfl, ⟨fun j hj => absurd hj (List.not_mem_nil j), hs.1⟩⟩
    · obtain ⟨A, B, hl, hA, hB⟩ := ih hs.2 hmem
      refine ⟨x :: A, B, by rw [hl]; rfl, ?_, hB⟩
      intro j hj
      rcases List.mem_cons.mp hj with h1 | h2
      · rw [h1]
        exact hs.1 m hmem
      · exact hA j h2

theorem b2j_filter_eq (a : List String) (s : String) :
    (b2j a s).filter (fun j => decide (0 ≤ j ∧ j < a.length)) = b2j a s := by
  apply List.filter_eq_self.mpr
  intro j hj
  simp [mem_b2j_lt hj]

theorem foldl_innerStep_snd (old : Nat → Nat) (i : Nat) :
    ∀ (js : List Nat) (st : Best × (Nat → Nat)) (j : Nat),
      (js.foldl (innerStep old i) st).2 j =
        if j ∈ js then (if j = 0 then 0 else old (j - 1)) + 1 else st.2 j := by
  intro js
  induction js with
  | nil =>
    intro st j
    simp
  | cons x xs ih =>
    intro st j
    rw [List.foldl_cons, ih]
    by_cases hx : j ∈ xs
    · rw [if_pos hx, if_pos (List.mem_cons.mpr (Or.inr hx))]
    · rw [if_neg hx]
      by_cases hjx : j = x
      · subst hjx
        rw [if_pos (List.mem_cons_self j xs)]
        simp [innerStep]
      · rw [if_neg (by intro hc; exact absurd (List.mem_cons.mp hc) (by simp [hjx, hx]))]
        simp [innerStep, hjx]

theorem foldl_innerStep_fst (old : Nat → Nat) (i : Nat) :
    ∀ (js : List Nat) (st : Best × (Nat → Nat)),
      (∀ j ∈ js, (if j = 0 then 0 else old (j - 1)) + 1 ≤ st.1.size) →
      (js.foldl (innerStep old i) st).1 = st.1 := by
  intro js
  induction js with
  | nil =>
    intro st _
    rfl
  | cons x xs ih =>
    intro st hle
    rw [List.foldl_cons]
    have hstep : (innerStep old i st x).1 = st.1 := by
      simp only [innerStep]
      rw [if_neg (Nat.not_lt.mpr (hle x (List.mem_cons_self x xs)))]
    have h2 : ∀ j ∈ xs,
        (if j = 0 then 0 else old (j - 1)) + 1 ≤ (innerStep old i st x).1.size := by
      intro j hj
      rw [hstep]
      exact hle j (List.mem_cons.mpr (Or.inr hj))
    rw [ih _ h2, hstep]

theorem innerRow_self_snd (a : List String) (i : Nat) (old : Nat → Nat)
    (best0 : Best)
    (hk : ∀ j ∈ b2j a (a.getD i ""),
      (if j = 0 then 0 else old (j - 1)) + 1 = chainC a i j) :
    (innerRow old 0 a.length (b2j a (a.getD i "")) i best0).2 =
      fun j => chainC a i j := by
  unfold innerRow
  rw [b2j_filter_eq]
  funext j
  rw [foldl_innerStep_snd]
  by_cases hj : j ∈ b2j a (a.getD i "")
  · rw [if_pos hj, hk j hj]
  · rw [if_neg hj]
    exact (chainC_eq_zero hj).symm

theorem innerRow_self_fst (a : List String) (i : Nat) (hi : i < a.length)
    (old : Nat → Nat) (best0 : Best)
    (hk : ∀ j ∈ b2j a (a.getD i ""),
      (if j = 0 then 0 else old (j - 1)) + 1 = chainC a i j)
    (hdom : ∀ i', i' < i → chainC a i' i' ≤ best0.size) :
    (innerRow old 0 a.length (b2j a (a.getD i "")) i best0).1 =
      if best0.size < chainC a i i then
        Best.mk (i + 1 - chainC a i i) (i + 1 - chainC a i i) (chainC a i i)
      else best0 := by
  unfold innerRow
  rw [b2j_filter_eq]
  by_cases hne : b2j a (a.getD i "") = []
  · have h0 : chainC a i i = 0 := chainC_eq_zero (by rw [hne]; simp)
    rw [hne, List.foldl_nil, h0, if_neg (Nat.not_lt_zero _)]
  · have hmem := self_mem_b2j hi hne
    obtain ⟨A, B, hsplit, hA, hB⟩ := sorted_split (b2j_sorted a _) hmem
    have hkA : ∀ j ∈ A, j ∈ b2j a (a.getD i "") := by
      intro j hj
      rw [hsplit]
      exact List.mem_append_left _ hj
    have hkB : ∀ j ∈ B, j ∈ b2j a (a.getD i "") := by
      intro j hj
      rw [hsplit]
      exact List.mem_append_right _ (List.mem_cons.mpr (Or.inr hj))
    rw [hsplit, List.foldl_append, List.foldl_cons]
    have hAfst : (A.foldl (innerStep old i) (best0, fun _ => 0)).1 = best0 := by
      apply foldl_innerStep_fst
      intro j hj
      rw [hk j (hkA j hj)]
      exact le_trans (chainC_le_self_col a i j) (hdom j (hA j hj))
    have hmid : (innerStep old i (A.foldl (innerStep old i) (best0, fun _ => 0)) i).1 =
        if best0.size < chainC a i i then
          Best.mk (i + 1 - chainC a i i) (i + 1 - chainC a i i) (chainC a i i)
        else best0 := by
      simp only [innerStep]
      rw [hAfst, hk i hmem]
    have hmidsize : chainC a i i ≤
        (innerStep old i (A.foldl (innerStep old i) (best0, fun _ => 0)) i).1.size := by
      rw [hmid]
      split
      · exact le_refl _
      · next hnf => exact Nat.not_lt.mp hnf
    have hBfst := foldl_innerStep_fst old i B
      (innerStep old i (A.foldl (innerStep old i) (best0, fun _ => 0)) i)
      (by
        intro j hj
        rw [hk j (hkB j hj)]
        exact le_trans (chainC_le_diag_row a i j hi) hmidsize)
    rw [hBfst, hmid]

theorem innerLoop_self (a : List String) :
    (innerLoop a a 0 a.length 0 a.length).i = (innerLoop a a 0 a.length 0 a.length).j ∧
    (innerLoop a a 0 a.length 0 a.length).i + (innerLoop a a 0 a.length 0 a.length).size ≤
      a.length := by
  have key : ∀ m, m ≤ a.length →
      ((List.range m).foldl
        (fun (st : Best × (Nat → Nat)) i =>
          innerRow st.2 0 a.length (b2j a (a.getD i "")) i st.1)
        (Best.mk 0 0 0, fun _ => 0)).1.i =
      ((List.range m).foldl
        (fun (st : Best × (Nat → Nat)) i =>
          innerRow st.2 0 a.length (b2j a (a.getD i "")) i st.1)
        (Best.mk 0 0 0, fun _ => 0)).1.j ∧
      ((List.range m).foldl
        (fun (st : Best × (Nat → Nat)) i =>
          innerRow st.2 0 a.length (b2j a (a.getD i "")) i st.1)
        (Best.mk 0 0 0, fun _ => 0)).1.i +
      ((List.range m).foldl
        (fun (st : Best × (Nat → Nat)) i =>
          innerRow st.2 0 a.length (b2j a (a.getD i "")) i st.1)
        (Best.mk 0 0 0, fun _ => 0)).1.size ≤ a.length ∧
      (∀ i', i' < m → chainC a i' i' ≤
        ((List.range m).foldl
          (fun (st : Best × (Nat → Nat)) i =>
            innerRow st.2 0 a.length (b2j a (a.getD i "")) i st.1)
          (Best.mk 0 0 0, fun _ => 0)).1.size) ∧
      (∀ j ∈ b2j a (a.getD m ""),
        (if j = 0 then 0 else
          ((List.range m).foldl
            (fun (st : Best × (Nat → Nat)) i =>
              innerRow st.2 0 a.length (b2j a (a.getD i "")) i st.1)
            (Best.mk 0 0 0, fun _ => 0)).2 (j - 1)) + 1 = chainC a m j) := by
    intro m
    induction m with
    | zero =>
      intro _
      refine ⟨rfl, Nat.zero_le _, fun i' hi' => absurd hi' (Nat.not_lt_zero i'), ?_⟩
      intro j hj
      rw [chainC_zero_eq, if_pos hj]
      simp
    | succ m ih =>
      intro hm
      have hmn : m < a.length := Nat.lt_of_succ_le hm
      obtain ⟨ihdiag, ihsum, ihdom, ihk⟩ := ih (Nat.le_of_lt hmn)
      rw [List.range_succ, List.foldl_append, List.foldl_cons, List.foldl_nil]
      set st := (List.range m).foldl
        (fun (st : Best × (Nat → Nat)) i =>
          innerRow st.2 0 a.length (b2j a (a.getD i "")) i st.1)
        (Best.mk 0 0 0, fun _ => 0) with hst
      have hfst := innerRow_self_fst a m hmn st.2 st.1 ihk ihdom
      have hsnd := innerRow_self_snd a m st.2 st.1 ihk
      have hsz : chainC a m m ≤ (innerRow st.2 0 a.length (b2j a (a.getD m "")) m st.1).1.size := by
        rw [hfst]
        split
        · exact le_refl _
        · next hnf => exact Nat.not_lt.mp hnf
      have hmono : st.1.size ≤ (innerRow st.2 0 a.length (b2j a (a.getD m "")) m st.1).1.size := by
        rw [hfst]
        split
        · next hf => exact le_of_lt hf
        · exact le_refl _
      refine ⟨?_, ?_, ?_, ?_⟩
      · rw [hfst]
        split
        · rfl
        · exact ihdiag
      · rw [hfst]
        split
        · have hle : chainC a m m ≤ m + 1 := chainC_le_row a m m
          have : m + 1 - chainC a m m + chainC a m m = m + 1 := Nat.sub_add_cancel hle
          rw [this]
          exact hm
        · exact ihsum
      · intro i' hi'
        rcases Nat.lt_succ_iff_lt_or_eq.mp hi' with h1 | h2
        · exact le_trans (ihdom i' h1) hmono
        · rw [h2]
          exact hsz
      · intro j hj
        rw [hsnd]
        by_cases hj0 : j = 0
        · rw [if_pos hj0]
          rw [chainC_succ_eq, if_pos hj, if_pos hj0]
        · rw [if_neg hj0]
          rw [chainC_succ_eq, if_pos hj, if_neg hj0]
  have hrange : List.range' 0 (a.length - 0) = List.range a.length := by
    rw [Nat.sub_zero, ← List.range_eq_range']
  unfold innerLoop
  rw [hrange]
  exact ⟨(key a.length (le_refl _)).1, (key a.length (le_refl _)).2.1⟩

theorem extendBack_self (a : List String) :
    ∀ t s, extendBack a a 0 0 t t s = Best.mk 0 0 (s + t) := by
  intro t
  induction t with
  | zero =>
    intro s
    rfl
  | succ t ih =>
    intro s
    have hcond : 0 < t + 1 ∧ 0 < t + 1 ∧ a.getD t "" = a.getD (t + 1 - 1) "" := by
      refine ⟨Nat.succ_pos t, Nat.succ_pos t, ?_⟩
      rw [Nat.add_sub_cancel]
    rw [extendBack, if_pos hcond, Nat.add_sub_cancel, ih]
    have : s + 1 + t = s + (t + 1) := by omega
    rw [this]

theorem extendFwd_self (a : List String) :
    ∀ fuel s, s ≤ a.length → a.length ≤ s + fuel →
      extendFwd a a a.length a.length 0 0 fuel s = a.length := by
  intro fuel
  induction fuel with
  | zero =>
    intro s hs1 hs2
    have : s = a.length := le_antisymm hs1 (by omega)
    rw [extendFwd, this]
  | succ fuel ih =>
    intro s hs1 hs2
    by_cases hlt : s < a.length
    · have hcond : 0 + s < a.length ∧ 0 + s < a.length ∧
          a.getD (0 + s) "" = a.getD (0 + s) "" := by
        refine ⟨by omega, by omega, rfl⟩
      rw [extendFwd, if_pos hcond]
      exact ih (s + 1) hlt (by omega)
    · have hseq : s = a.length := le_antisymm hs1 (Nat.not_lt.mp hlt)
      have hcond : ¬(0 + s < a.length ∧ 0 + s < a.length ∧
          a.getD (0 + s) "" = a.getD (0 + s) "") := by
        intro hc
        omega
      rw [extendFwd, if_neg hcond, hseq]

theorem findLongestMatch_self (a : List String) :
    findLongestMatch a a 0 a.length 0 a.length = Best.mk 0 0 a.length := by
  obtain ⟨hdiag, hsum⟩ := innerLoop_self a
  simp only [findLongestMatch]
  rw [← hdiag]
  simp only [extendBack_self]
  have hle : (innerLoop a a 0 a.length 0 a.length).size +
      (innerLoop a a 0 a.length 0 a.length).i ≤ a.length := by omega
  rw [extendFwd_self a a.length _ hle (by omega)]

theorem matchingBlocks_self (a : List String) (h : a ≠ []) :
    matchingBlocksAux a a (a.length + a.length + 1) 0 a.length 0 a.length =
      [(0, 0, a.length)] := by
  have hn : a.length ≠ 0 := by
    intro hc
    exact h (List.length_eq_zero.mp hc)
  simp only [matchingBlocksAux, findLongestMatch_self]
  rw [if_neg hn, if_neg (by simp), if_neg (by omega)]
  simp

theorem getMatchingBlocks_self (a : List String) (h : a ≠ []) :
    getMatchingBlocks a a = [(0, 0, a.length), (a.length, a.length, 0)] := by
  have hn : a.length ≠ 0 := by
    intro hc
    exact h (List.length_eq_zero.mp hc)
  unfold getMatchingBlocks
  rw [matchingBlocks_self a h]
  unfold collapseBlocks
  simp [hn]

theorem getOpcodes_self (a : List String) (h : a ≠ []) :
    getOpcodes a a = [Opcode.mk Tag.equal 0 a.length 0 a.length] := by
  have hn : a.length ≠ 0 := by
    intro hc
    exact h (List.length_eq_zero.mp hc)
  unfold getOpcodes
  rw [getMatchingBlocks_self a h]
  simp [hn]

theorem getGroupedOpcodes_self (a : List String) :
    getGroupedOpcodes a a = [] := by
  by_cases h : a = []
  · subst h
    decide
  · simp only [getGroupedOpcodes]
    rw [getOpcodes_self a h]
    have h0 : (if ([Opcode.mk Tag.equal 0 a.length 0 a.length] : List Opcode) = [] then
        [Opcode.mk Tag.equal 0 1 0 1]
      else [Opcode.mk Tag.equal 0 a.length 0 a.length]) =
        [Opcode.mk Tag.equal 0 a.length 0 a.length] := by simp
    rw [h0]
    have hhead : fixupHead 3 [Opcode.mk Tag.equal 0 a.length 0 a.length] =
        [Opcode.mk Tag.equal (a.length - 3) a.length (a.length - 3) a.length] := by
      simp [fixupHead, Nat.zero_max]
    rw [hhead]
    have hlast : fixupLast 3
        [Opcode.mk Tag.equal (a.length - 3) a.length (a.length - 3) a.length] =
        [Opcode.mk Tag.equal (a.length - 3) (min a.length (a.length - 3 + 3))
          (a.length - 3) (min a.length (a.length - 3 + 3))] := by
      simp [fixupLast]
    rw [hlast]
    rw [List.foldl_cons, List.foldl_nil]
    have hb : min a.length (a.length - 3 + 3) ≤ a.length - 3 + 3 :=
      Nat.min_le_right _ _
    have hcond : ¬((Opcode.mk Tag.equal (a.length - 3) (min a.length (a.length - 3 + 3))
        (a.length - 3) (min a.length (a.length - 3 + 3))).tag = Tag.equal ∧
        2 * 3 < (Opcode.mk Tag.equal (a.length - 3) (min a.length (a.length - 3 + 3))
          (a.length - 3) (min a.length (a.length - 3 + 3))).i2 -
          (Opcode.mk Tag.equal (a.length - 3) (min a.length (a.length - 3 + 3))
            (a.length - 3) (min a.length (a.length - 3 + 3))).i1) := by
      intro hc
      have h2 : 2 * 3 < min a.length (a.length - 3 + 3) - (a.length - 3) := hc.2
      omega
    rw [if_neg hcond]
    simp

theorem unifiedDiff_self (X : List String) : unifiedDiff X X = [] := by
  simp [unifiedDiff, getGroupedOpcodes_self]

theorem processLines_fst (d : List String) :
    ∀ s0, (processLines d s0).1 = d.filter isChangedLine := by
  induction d with
  | nil =>
    intro s0
    rfl
  | cons l ls ih =>
    intro s0
    show (if isChangedLine l then l :: (processLines ls l).1 else (processLines ls l).1) =
      List.filter isChangedLine (l :: ls)
    rw [List.filter_cons, ih l]

theorem processLines_snd (d : List String) :
    ∀ s0, (processLines d s0).2 =
      (List.range d.length).flatMap
        (fun i => stepCommands (if i = 0 then s0 else d.getD (i - 1) "") (d.getD i "")) := by
  induction d with
  | nil =>
    intro s0
    rfl
  | cons l ls ih =>
    intro s0
    show stepCommands s0 l ++ (processLines ls l).2 = _
    rw [ih l, List.length_cons, List.range_succ_eq_map, List.flatMap_cons,
      List.flatMap_map]
    have h0 : stepCommands (if 0 = 0 then s0 else (l :: ls).getD (0 - 1) "")
        ((l :: ls).getD 0 "") = stepCommands s0 l := by
      rw [if_pos rfl]
      rfl
    rw [h0]
    have hfun : ∀ i ∈ List.range ls.length,
        stepCommands (if i = 0 then l else ls.getD (i - 1) "") (ls.getD i "") =
        stepCommands (if Nat.succ i = 0 then s0 else (l :: ls).getD (Nat.succ i - 1) "")
          ((l :: ls).getD (Nat.succ i) "") := by
      intro i _
      have hni : Nat.succ i ≠ 0 := Nat.succ_ne_zero i
      rw [if_neg hni]
      have h1 : (l :: ls).getD (Nat.succ i - 1) "" = if i = 0 then l else ls.getD (i - 1) "" := by
        cases i with
        | zero => rfl
        | succ i' => rfl
      have h2 : (l :: ls).getD (Nat.succ i) "" = ls.getD i "" := rfl
      rw [h1, h2]
    rw [List.flatMap_congr hfun]

theorem isChangedLine_of_rule {line p : String} (hp : 1 ≤ p.data.length)
    (hhead : pyHead line = '-')
    (hpre : pyStartsWith (pyTail line) p = true) :
    isChangedLine line = true := by
  apply decide_eq_true
  refine ⟨Or.inl hhead, ?_⟩
  unfold pyStartsWith at hpre
  have hpref : p.data <+: (pyTail line).data := List.isPrefixOf_iff_prefix.mp hpre
  have hlen : p.data.length ≤ (pyTail line).data.length := hpref.length_le
  have hdata : (pyTail line).data = line.data.drop 1 := rfl
  rw [hdata, List.length_drop] at hlen
  omega

theorem isChangedLine_of_stepCommands {last_line line : String}
    (h : stepCommands last_line line ≠ []) : isChangedLine line = true := by
  by_cases h1 : pyHead line = '-' ∧ pyStartsWith (pyTail line) "service-instance" = true
  · exact isChangedLine_of_rule (by decide) h1.1 h1.2
  by_cases h2 : pyHead line = '-' ∧ pyStartsWith (pyTail line) "ip route-static vpn-instance" = true
  · exact isChangedLine_of_rule (by decide) h2.1 h2.2
  by_cases h3 : pyHead line = '-' ∧ pyStartsWith (pyTail line) "vsi" = true
  · exact isChangedLine_of_rule (by decide) h3.1 h3.2
  by_cases h4 : pyHead line = '-' ∧ pyStartsWith (pyTail line) "ip vpn-instance" = true
  · exact isChangedLine_of_rule (by decide) h4.1 h4.2
  by_cases h5 : pyHead line = '-' ∧ pyStartsWith (pyTail line) "interface Vsi-interface" = true
  · exact isChangedLine_of_rule (by decide) h5.1 h5.2
  by_cases h6 : pyHead line = '-' ∧ pyStartsWith (pyTail line) "interface Tunnel" = true
  · exact isChangedLine_of_rule (by decide) h6.1 h6.2
  exfalso
  apply h
  unfold stepCommands
  rw [if_neg h1, if_neg h2, if_neg h3, if_neg h4, if_neg h5, if_neg h6]
  rfl

theorem stepCommands_short {last_line line : String} (h : line.data.length < 2) :
    stepCommands last_line line = [] ∧ isChangedLine line = false := by
  have htail : pyTail line = "" := by
    unfold pyTail
    have hd : line.data.drop 1 = [] :=
      List.drop_eq_nil_of_le (by omega)
    rw [hd]
  have hfalse : ∀ p : String, 1 ≤ p.data.length →
      ¬(pyHead line = '-' ∧ pyStartsWith (pyTail line) p = true) := by
    intro p hp hc
    have hpre := hc.2
    unfold pyStartsWith at hpre
    rw [htail] at hpre
    have hpref : p.data <+: ("" : String).data := List.isPrefixOf_iff_prefix.mp hpre
    have : p.data.length ≤ (0 : Nat) := hpref.length_le
    omega
  constructor
  · unfold stepCommands
    rw [if_neg (hfalse _ (by decide)), if_neg (hfalse _ (by decide)),
      if_neg (hfalse _ (by decide)), if_neg (hfalse _ (by decide)),
      if_neg (hfalse _ (by decide)), if_neg (hfalse _ (by decide))]
    rfl
  · apply decide_eq_false
    intro hc
    omega

theorem processLines_commands_ne_nil (d : List String) :
    ∀ s0, (processLines d s0).2 ≠ [] → (processLines d s0).1 ≠ [] := by
  induction d with
  | nil =>
    intro s0 h
    exact absurd rfl h
  | cons l ls ih =>
    intro s0 h
    show (if isChangedLine l then l :: (processLines ls l).1 else (processLines ls l).1) ≠ []
    by_cases hs : stepCommands s0 l = []
    · have ht2 : (processLines ls l).2 ≠ [] := by
        intro hc
        apply h
        show stepCommands s0 l ++ (processLines ls l).2 = []
        rw [hs, hc]
        rfl
      have hfst := ih l ht2
      by_cases hc : isChangedLine l
      · rw [if_pos hc]
        exact List.cons_ne_nil l _
      · rw [if_neg hc]
        exact hfst
    · rw [if_pos (isChangedLine_of_stepCommands hs)]
      exact List.cons_ne_nil l _

theorem data_append_cons {s : String} {c : Char} {cs : List Char}
    (t : String) (h : s.data = c :: cs) :
    (s ++ t).data = c :: (cs ++ t.data) := by
  rw [String.data_append, h]
  rfl

theorem pyHead_of_data_cons {l : String} {c : Char} {cs : List Char}
    (h : l.data = c :: cs) : pyHead l = c := by
  unfold pyHead
  rw [h]
  rfl

theorem length_pos_of_data_cons {l : String} {c : Char} {cs : List Char}
    (h : l.data = c :: cs) : 0 < l.data.length := by
  rw [h]
  simp

theorem renderOpcode_shape (aL bL : List String) (c : Opcode) :
    ∀ l ∈ renderOpcode aL bL c, 0 < l.data.length ∧
      (pyHead l = '-' ∨ pyHead l = '+' ∨ pyHead l = '@' ∨ pyHead l = ' ') := by
  intro l hl
  unfold renderOpcode at hl
  split at hl
  · obtain ⟨x, _, hx⟩ := List.mem_map.mp hl
    have hd : l.data = ' ' :: ([] ++ x.data) := by
      rw [← hx]
      exact data_append_cons x rfl
    exact ⟨length_pos_of_data_cons hd,
      Or.inr (Or.inr (Or.inr (pyHead_of_data_cons hd)))⟩
  · rcases List.mem_append.mp hl with h1 | h2
    · split at h1
      · obtain ⟨x, _, hx⟩ := List.mem_map.mp h1
        have hd : l.data = '-' :: ([] ++ x.data) := by
          rw [← hx]
          exact data_append_cons x rfl
        exact ⟨length_pos_of_data_cons hd, Or.inl (pyHead_of_data_cons hd)⟩
      · cases h1
    · split at h2
      · obtain ⟨x, _, hx⟩ := List.mem_map.mp h2
        have hd : l.data = '+' :: ([] ++ x.data) := by
          rw [← hx]
          exact data_append_cons x rfl
        exact ⟨length_pos_of_data_cons hd, Or.inr (Or.inl (pyHead_of_data_cons hd))⟩
      · cases h2

theorem renderGroup_shape (aL bL : List String) (g : List Opcode) :
    ∀ l ∈ renderGroup aL bL g, 0 < l.data.length ∧
      (pyHead l = '-' ∨ pyHead l = '+' ∨ pyHead l = '@' ∨ pyHead l = ' ') := by
  intro l hl
  simp only [renderGroup] at hl
  rcases List.mem_cons.mp hl with hh | hrest
  · have e1 : ("@@ -" ++ formatRangeUnified (g.headD (Opcode.mk Tag.equal 0 0 0 0)).i1
        (g.getLastD (Opcode.mk Tag.equal 0 0 0 0)).i2).data =
        '@' :: (['@', ' ', '-'] ++ (formatRangeUnified _ _).data) :=
      data_append_cons _ rfl
    have e2 := data_append_cons " +" e1
    have e3 := data_append_cons (formatRangeUnified
        (g.headD (Opcode.mk Tag.equal 0 0 0 0)).j1
        (g.getLastD (Opcode.mk Tag.equal 0 0 0 0)).j2) e2
    have e4 := data_append_cons " @@\n" e3
    rw [← hh] at e4
    exact ⟨length_pos_of_data_cons e4, Or.inr (Or.inr (Or.inl (pyHead_of_data_cons e4)))⟩
  · obtain ⟨sub, hsub, hmem⟩ := List.mem_flatten.mp hrest
    obtain ⟨op, _, hop⟩ := List.mem_map.mp hsub
    rw [← hop] at hmem
    exact renderOpcode_shape aL bL op l hmem

theorem unifiedDiff_shape (prevC curC : List String) :
    ∀ l ∈ unifiedDiff prevC curC, 0 < l.data.length ∧
      (pyHead l = '-' ∨ pyHead l = '+' ∨ pyHead l = '@' ∨ pyHead l = ' ') := by
  intro l hl
  simp only [unifiedDiff] at hl
  split at hl
  · cases hl
  · rcases List.mem_cons.mp hl with h1 | hl2
    · subst h1
      exact ⟨by decide, Or.inl (by decide)⟩
    · rcases List.mem_cons.mp hl2 with h2 | hl3
      · subst h2
        exact ⟨by decide, Or.inr (Or.inl (by decide))⟩
      · obtain ⟨sub, hsub, hmem⟩ := List.mem_flatten.mp hl3
        obtain ⟨g, _, hg⟩ := List.mem_map.mp hsub
        rw [← hg] at hmem
        exact renderGroup_shape prevC curC g l hmem

theorem unifiedDiff_take_two (prevC curC : List String)
    (h : unifiedDiff prevC curC ≠ []) :
    (unifiedDiff prevC curC).take 2 =
      ["--- previous_config\n", "+++ current_config\n"] := by
  simp only [unifiedDiff] at h ⊢
  split at h
  · exact absurd rfl h
  · next hg =>
    rw [if_neg hg]
    rfl

theorem mainCommands_false_eq (is_delete : String) (pcc pcf : Option String)
    (fs : String → Option (List String)) (cfg P : List String)
    (hmode : pyLower is_delete = "false")
    (hload : loadPreviousConfig pcc pcf fs = Except.ok P) :
    mainCommands is_delete pcc pcf fs cfg =
      if 0 < (processDiff P cfg).1.length then
        Except.ok ((processDiff P cfg).2 ++ cfg.map pyRstrip)
      else
        Except.ok ((processDiff P cfg).2 ++ ["# There are no changes"]) := by
  have htrue : pyLower is_delete ≠ "true" := by
    rw [hmode]
    decide
  simp only [mainCommands, if_pos hmode, hload]
  rw [if_neg htrue]
  by_cases hlen : 0 < (processDiff P cfg).1.length
  · rw [if_pos ⟨hmode, hlen⟩, if_pos hlen]
  · rw [if_neg (fun hc => hlen hc.2), if_neg hlen]

/-! ## Claim theorems -/

/-- Claim C1, counterexample: for `previous = ["context-line",
"service-instance 5"]` and `current = ["context-line"]` the synthesizer does
NOT emit exactly `["context-line", "undo service-instance 5", "quit"]`: the
third command carries a trailing newline (`'quit\n'` is appended verbatim at
line 117 of the source). -/
theorem claim_C1_cex :
    (processDiff ["context-line", "service-instance 5"] ["context-line"]).2 ≠
      ["context-line", "undo service-instance 5", "quit"] := by decide

/-- Claim C1 as amended: for `previous = ["context-line",
"service-instance 5"]` and `current = ["context-line"]`, the differ plus
synthesizer emit exactly `["context-line", "undo service-instance 5",
"quit\n"]` (the `quit` command ends in a newline character), and the
reported edit script is `["-service-instance 5"]`. -/
theorem claim_C1_amended :
    processDiff ["context-line", "service-instance 5"] ["context-line"] =
      (["-service-instance 5"],
       ["context-line", "undo service-instance 5", "quit\n"]) := by decide

/-- Claim C2, counterexample: for the removed lines `bgp` and
`ip vpn-instance test` the emitted third command is `"quit\n"`, not
`"quit"`. -/
theorem claim_C2_cex :
    (processDiff ["bgp", "ip vpn-instance test"] []).2 ≠
      ["bgp", "undo ip vpn-instance test", "quit"] := by decide

/-- Claim C2 as amended: a removed `bgp` line immediately followed in the
edit script by a removed `ip vpn-instance test` line yields
`["bgp", "undo ip vpn-instance test", "quit\n"]` (trailing newline on
`quit`); the same removed line without a preceding `bgp` line yields only
`["undo ip vpn-instance test"]`. -/
theorem claim_C2_amended :
    (processDiff ["bgp", "ip vpn-instance test"] []).2 =
      ["bgp", "undo ip vpn-instance test", "quit\n"] ∧
    (processDiff ["ip vpn-instance test"] []).2 =
      ["undo ip vpn-instance test"] := by decide

/-- Claim C3, counterexample: the look-back is NOT always an element of the
edit script.  For `previous = ["context-line", "service-instance 5"]`,
`current = ["context-line"]`, the raw post-header diff is
`["@@ -1,2 +1 @@\n", " context-line", "-service-instance 5"]`; the
`service-instance` rule fires on element 2 and consults the look-back
`" context-line"` — a context line with marker `' '`, which is not tagged
`+`/`-` and does not occur in the reported edit script `list_diff`
(whose only element is `"-service-instance 5"`); its marker-stripped text
becomes the first emitted command. -/
theorem claim_C3_cex :
    ((unifiedDiff ["context-line", "service-instance 5"] ["context-line"]).drop 2).getD 1 ""
        = " context-line" ∧
    stepCommands " context-line" "-service-instance 5" ≠ [] ∧
    ¬(pyHead " context-line" = '-' ∨ pyHead " context-line" = '+') ∧
    " context-line" ∉
      (processDiff ["context-line", "service-instance 5"] ["context-line"]).1 ∧
    (processDiff ["context-line", "service-instance 5"] ["context-line"]).2.getD 0 ""
        = pyTail " context-line" := by decide

/-- Claim C3 as amended: for every pair of input configurations, the
look-back value consulted while processing element `i` of the raw
post-header diff sequence is exactly the immediately preceding raw diff
line (which may be a `' '`-marked context line or an `@@` hunk-range line,
both outside the `+`/`-` edit script), with the empty string at `i = 0` —
and `changedLines` is the `+`/`-`-and-length filter of that same raw
sequence. -/
theorem claim_C3_amended (prevC curC : List String) :
    (processDiff prevC curC).2 =
      (List.range ((unifiedDiff prevC curC).drop 2).length).flatMap
        (fun i => stepCommands (lookbackAt ((unifiedDiff prevC curC).drop 2) i)
          (((unifiedDiff prevC curC).drop 2).getD i "")) ∧
    (processDiff prevC curC).1 =
      ((unifiedDiff prevC curC).drop 2).filter isChangedLine := by
  constructor
  · rw [show (processDiff prevC curC).2 =
      (processLines ((unifiedDiff prevC curC).drop 2) "").2 from rfl]
    rw [processLines_snd]
    rfl
  · rw [show (processDiff prevC curC).1 =
      (processLines ((unifiedDiff prevC curC).drop 2) "").1 from rfl]
    rw [processLines_fst]

/-- Claim C4, counterexample: the differ's output is NOT limited to
`+`/`-`-marked changed lines past the two header lines.  For
`previous = ["a", "b"]`, `current = ["a", "c"]` the post-header output
begins with an `@@` hunk-range line and contains the unchanged line `"a"`
as a `' '`-marked context line. -/
theorem claim_C4_cex :
    (unifiedDiff ["a", "b"] ["a", "c"]).drop 2 =
      ["@@ -1,2 +1,2 @@\n", " a", "-b", "+c"] ∧
    ¬(pyHead "@@ -1,2 +1,2 @@\n" = '-' ∨ pyHead "@@ -1,2 +1,2 @@\n" = '+') ∧
    ¬(pyHead " a" = '-' ∨ pyHead " a" = '+') := by decide

/-- Claim C4 as amended: for every pair of input line sequences the differ's
output is either empty or starts with the two stream-identifying header
lines; and every output line is non-empty and starts with one of the
marker characters `'-'`, `'+'`, `'@'` (hunk-range lines) or `' '` (up to
three context lines around each change are included, since the source calls
`unified_diff` with the default `n = 3`, not `n = 0`). -/
theorem claim_C4_amended (prevC curC : List String) (l : String) :
    (unifiedDiff prevC curC ≠ [] →
      (unifiedDiff prevC curC).take 2 =
        ["--- previous_config\n", "+++ current_config\n"]) ∧
    (l ∈ unifiedDiff prevC curC →
      0 < l.data.length ∧
      (pyHead l = '-' ∨ pyHead l = '+' ∨ pyHead l = '@' ∨ pyHead l = ' ')) :=
  ⟨unifiedDiff_take_two prevC curC, unifiedDiff_shape prevC curC l⟩

theorem claim_C4_witness :
    (unifiedDiff ["a", "b"] ["a", "c"]).take 2 =
      ["--- previous_config\n", "+++ current_config\n"] ∧
    (0 < (" a" : String).data.length ∧
      (pyHead " a" = '-' ∨ pyHead " a" = '+' ∨ pyHead " a" = '@' ∨ pyHead " a" = ' ')) :=
  ⟨(claim_C4_amended ["a", "b"] ["a", "c"] " a").1 (by decide),
   (claim_C4_amended ["a", "b"] ["a", "c"] " a").2 (by decide)⟩

/-- Claim C5: in incremental mode (`is_delete = 'false'`, previous config
loaded successfully), if `list_diff` is non-empty the final command
sequence is the synthesized undo commands followed by every line of the
current-configuration file in file order (each passed through Python's
`line.rstrip()`, which trims trailing whitespace); if `list_diff` is empty
the final command sequence is exactly the single placeholder
`"# There are no changes"` (the synthesized command list is provably empty
in that case). -/
theorem claim_C5 (is_delete : String) (pcc pcf : Option String)
    (fs : String → Option (List String)) (cfg P : List String)
    (hmode : pyLower is_delete = "false")
    (hload : loadPreviousConfig pcc pcf fs = Except.ok P) :
    ((processDiff P cfg).1 ≠ [] →
      mainCommands is_delete pcc pcf fs cfg =
        Except.ok ((processDiff P cfg).2 ++ cfg.map pyRstrip)) ∧
    ((processDiff P cfg).1 = [] →
      mainCommands is_delete pcc pcf fs cfg =
        Except.ok ["# There are no changes"]) := by
  rw [mainCommands_false_eq is_delete pcc pcf fs cfg P hmode hload]
  constructor
  · intro hne
    rw [if_pos (List.length_pos.mpr hne)]
  · intro heq
    have hcmds : (processDiff P cfg).2 = [] := by
      by_contra hc
      exact processLines_commands_ne_nil _ "" hc heq
    rw [if_neg (by rw [heq]; simp), hcmds]
    rfl

theorem claim_C5_witness :
    mainCommands "false" (some "context-line\nservice-instance 5") none
        (fun _ => none) ["context-line"] =
      Except.ok ((processDiff ["context-line", "service-instance 5"]
        ["context-line"]).2 ++ ["context-line"].map pyRstrip) ∧
    mainCommands "false" (some "x") none (fun _ => none) ["x"] =
      Except.ok ["# There are no changes"] :=
  ⟨(claim_C5 "false" (some "context-line\nservice-instance 5") none
      (fun _ => none) ["context-line"] ["context-line", "service-instance 5"]
      (by decide) (by rfl)).1 (by decide),
   (claim_C5 "false" (some "x") none (fun _ => none) ["x"] ["x"]
      (by decide) (by rfl)).2 (by decide)⟩

/-- Claim C6, counterexample: in full-replacement mode the command sequence
is NOT verbatim equal to the file's lines: each line is passed through
`line.rstrip()`, so a line with trailing whitespace is trimmed. -/
theorem claim_C6_cex :
    mainCommands "true" none none (fun _ => none) ["snmp-agent  "] =
      Except.ok ["snmp-agent"] ∧
    mainCommands "true" none none (fun _ => none) ["snmp-agent  "] ≠
      Except.ok ["snmp-agent  "] := by
  have h1 : mainCommands "true" none none (fun _ => none) ["snmp-agent  "] =
      Except.ok ["snmp-agent"] := by rfl
  refine ⟨h1, fun hc => ?_⟩
  rw [h1] at hc
  have h2 : (["snmp-agent"] : List String) = ["snmp-agent  "] := Except.ok.inj hc
  simp at h2

/-- Claim C6 as amended: when the mode indicates full replacement
(`str(is_delete).lower() == 'true'`), no diff is run and the final command
sequence equals the current-configuration file's lines in file order with
trailing whitespace stripped from each line (Python's `line.rstrip()`),
regardless of any previous-configuration input supplied. -/
theorem claim_C6_amended (is_delete : String) (pcc pcf : Option String)
    (fs : String → Option (List String)) (cfg : List String)
    (hmode : pyLower is_delete = "true") :
    mainCommands is_delete pcc pcf fs cfg = Except.ok (cfg.map pyRstrip) := by
  have hfalse : pyLower is_delete ≠ "false" := by
    rw [hmode]
    decide
  simp only [mainCommands, if_neg hfalse]
  rw [if_pos hmode, List.nil_append]

theorem claim_C6_witness :
    mainCommands "True" (some "bgp\nvsi old") (some "/tmp/prev.cfg")
        (fun _ => some ["vsi old"]) ["vsi new", " indented "] =
      Except.ok (["vsi new", " indented "].map pyRstrip) :=
  claim_C6_amended "True" (some "bgp\nvsi old") (some "/tmp/prev.cfg")
    (fun _ => some ["vsi old"]) ["vsi new", " indented "] (by decide)

/-- Claim C7 (confirmed): for every configuration `X`, diffing `X` against
itself produces an empty edit script, and the synthesizer then yields empty
`changedLines` and empty `commands`: `process_diff(X, X) = ([], [])`. -/
theorem claim_C7 (X : List String) : processDiff X X = ([], []) := by
  unfold processDiff
  rw [unifiedDiff_self]
  rfl

/-- Claim C8 (confirmed): the diff-and-synthesis pass is total.  Every line
of the differ's output is non-empty, so the single character access
`line[0]` in the loop is always within bounds; and a diff line shorter than
two characters (a marker with no body) fires no rule (contributing no
commands) and fails the `len(line) > 1` filter (so it is excluded from
`changedLines`), without crashing the pass. -/
theorem claim_C8 (prevC curC : List String) (l last_line line : String) :
    (l ∈ unifiedDiff prevC curC → 0 < l.data.length) ∧
    (line.data.length < 2 →
      stepCommands last_line line = [] ∧ isChangedLine line = false) :=
  ⟨fun hl => (unifiedDiff_shape prevC curC l hl).1,
   fun hs => stepCommands_short hs⟩

theorem claim_C8_witness :
    0 < ("--- previous_config\n" : String).data.length ∧
    (stepCommands "-bgp" "-" = [] ∧ isChangedLine "-" = false) :=
  ⟨(claim_C8 ["a"] ["b"] "--- previous_config\n" "-bgp" "-").1 (by decide),
   (claim_C8 ["a"] ["b"] "--- previous_config\n" "-bgp" "-").2 (by decide)⟩

/-- Claim C9 (code bug): when `is_delete` is `'false'` and both
`previous_config_content` and `previous_config_file` are absent (`None`),
the flow does not proceed with an empty previous configuration: the guard
`os.path.isfile(previous_config_file)` receives `None` and CPython's
`os.stat` raises `TypeError` (which `genericpath.isfile` does not catch),
so the module fails instead. -/
theorem claim_C9_bug (fs : String → Option (List String)) (cfg : List String) :
    mainCommands "false" none none fs cfg =
      Except.error "TypeError: stat: path should be string, not NoneType" := by
  have hmode : pyLower "false" = "false" := by decide
  simp only [mainCommands, loadPreviousConfig, if_pos hmode]

/-- Claim C10 (confirmed): whenever the synthesizer emits a non-empty
command sequence, `list_diff` is also non-empty (every removed line that
fires a rule passes the `+`/`-`-and-length filter), hence in incremental
mode the placeholder branch is never taken while undo commands exist: the
final command list is always the undo commands followed by the
configuration file's (rstripped) lines, never undo commands alone. -/
theorem claim_C10 (prevC curC : List String)
    (h : (processDiff prevC curC).2 ≠ []) :
    (processDiff prevC curC).1 ≠ [] ∧
    (∀ is_delete : String, ∀ pcc pcf : Option String,
      ∀ fs : String → Option (List String),
      pyLower is_delete = "false" →
      loadPreviousConfig pcc pcf fs = Except.ok prevC →
      mainCommands is_delete pcc pcf fs curC =
        Except.ok ((processDiff prevC curC).2 ++ curC.map pyRstrip)) := by
  have hfst : (processDiff prevC curC).1 ≠ [] :=
    processLines_commands_ne_nil _ "" h
  refine ⟨hfst, ?_⟩
  intro is_delete pcc pcf fs hmode hload
  rw [mainCommands_false_eq is_delete pcc pcf fs curC prevC hmode hload]
  rw [if_pos (List.length_pos.mpr hfst)]

theorem claim_C10_witness :
    (processDiff ["vsi a"] []).1 ≠ [] ∧
    mainCommands "false" (some "vsi a") none (fun _ => none) [] =
      Except.ok ((processDiff ["vsi a"] []).2 ++ ([] : List String).map pyRstrip) :=
  ⟨(claim_C10 ["vsi a"] [] (by decide)).1,
   (claim_C10 ["vsi a"] [] (by decide)).2 "false" (some "vsi a") none
     (fun _ => none) (by decide) (by rfl)⟩

end ComwareInstallConfig2
